import Mathlib

/-!
Shallow embedding of `src/main.py` (a Qt batch-transcription tool driving the
whisper speech-recognition engine) together with proofs about the claims of
its specification.

Conventions of the embedding:

* Pure string/path manipulation is translated directly from the Python source.
* External effects (moviepy audio extraction, `whisper` model calls,
  `os.remove`) are driven by an explicit per-item environment (`ItemEnv`)
  recording which outcome each external call has; the worker code is then a
  pure function of the item and that environment, mirroring the control flow
  of the source line by line.
* The on-disk existence of the per-item temporary audio file is tracked as a
  boolean alongside the item.
* Statuses are the exact Russian strings used by the source:
  "Ожидание" = Pending, "В процессе" = Running, "Готово" = Done,
  "Ошибка" = Failed.
-/

/-- `FileItem` from `src/main.py` lines 17-22: one unit of work and its
outcome. -/
structure FileItem where
  file_path : String
  status : String := "Ожидание"
  transcription : String := ""
  error_message : String := ""
deriving DecidableEq

/-- The final path component: characters after the last slash
(`pathlib.PurePath.name` for ordinary file paths). -/
def afterLastSlash (s : List Char) : List Char :=
  (s.reverse.takeWhile (fun c => c ≠ '/')).reverse

/-- Split a character list at its LAST dot: `some (before, after)` when a dot
occurs, `none` otherwise.  This is the splitting performed by Python
`str.rsplit(".", 1)`. -/
def rsplitDot : List Char → Option (List Char × List Char)
  | [] => none
  | c :: rest =>
    match rsplitDot rest with
    | some (u, v) => some (c :: u, v)
    | none => if c = '.' then some ([], rest) else none

/-- `pathlib.PurePath.suffix`: the final extension of the last path
component, dot included; empty when the last component has no dot, starts
with its only dot, or ends with a dot. -/
def pathSuffix (s : List Char) : List Char :=
  let name := afterLastSlash s
  match rsplitDot name with
  | some (u, v) => if u ≠ [] ∧ v ≠ [] then '.' :: v else []
  | none => []

/-- `video_path.rsplit(".", 1)[0]`: the text before the last dot, or the whole
string when it has no dot. -/
def rsplitHead (s : List Char) : List Char :=
  match rsplitDot s with
  | some (u, _) => u
  | none => s

/-- Line 41: `temp_audio_path = video_path.rsplit(".", 1)[0] + "_temp_audio.wav"`. -/
def temp_audio_path (video_path : String) : String :=
  ⟨rsplitHead video_path.data ++ "_temp_audio.wav".data⟩

/-- Line 57: the video extension allow-list. -/
def video_extensions : List String :=
  [".mp4", ".avi", ".mov", ".mkv", ".flv", ".wmv", ".webm", ".m4v"]

/-- Lines 57-60: `file_ext = Path(file_path).suffix.lower()` followed by the
membership test `file_ext in video_extensions`. -/
def isVideoFile (file_path : String) : Bool :=
  let file_ext : String := ⟨(pathSuffix file_path.data).map Char.toLower⟩
  video_extensions.contains file_ext

/-- Outcomes of the external calls one item can trigger.  Each field records
what the corresponding external system would do for this item; the worker
code is a deterministic function of this record. -/
structure ItemEnv where
  /-- Outcome of the moviepy extraction (lines 43-44): `none` means the
  temporary audio file is written and the call returns; `some (msg, left)`
  means the call raises an exception rendering to the string `msg`, having
  left a (partial) file at the temp path iff `left` is `true`.  The source
  performs no cleanup of its own inside `extract_audio_from_video`, so a
  partially written file stays on disk in the failure case. -/
  extractErr : Option (String × Bool)
  /-- Outcome of `self.model.transcribe(audio_path, task=..., language=...)`
  (lines 66-76) as a function of the audio path, the task, and the language
  argument (`none` when the source omits the argument): `.ok text` is the
  `result["text"]` value, `.error msg` a raised exception rendering to
  `msg`. -/
  transcribe : String → String → Option String → Except String String
  /-- Outcome of `os.remove(temp_audio_path)`: `none` means the file is
  removed; `some msg` means the call raises an exception rendering to `msg`
  (and the file stays).  Modelled as deterministic per item, so a retried
  removal fails the same way. -/
  removeErr : Option String

/-- The Qt signals emitted by the worker (lines 26-28). -/
inductive Event where
  /-- `progress_update.emit(index, file_path, status)`; the GUI treats
  index `-1` as a run-level message and nonnegative indices as per-item
  status events. -/
  | progress_update (index : Int) (path : String) (status : String)
  /-- `file_progress.emit(percent)`: the aggregate-progress percentage. -/
  | file_progress (percent : Int)
  /-- `finished.emit()`. -/
  | finished
deriving DecidableEq

/-- Result of running `transcribe_file` on one item: the mutated item, whether
the temporary audio file exists on disk afterwards, and the signals emitted
by this worker in order. -/
structure ItemOutcome where
  item : FileItem
  tempFileExists : Bool
  events : List Event
deriving DecidableEq

/-- `TranscriptionWorker.__init__` fields (lines 30-38). -/
structure TranscriptionWorker where
  files : List FileItem
  model_name : String
  language : Option String
  task : String
  max_workers : Nat := 2
deriving DecidableEq

/-- Lines 40-48, `extract_audio_from_video`: returns the temp audio path on
success (the file now exists on disk); on failure raises an exception whose
message wraps the underlying one, with the flag recording whether a partial
file was left at the temp path.  Note the function itself deletes nothing on
failure. -/
def extract_audio_from_video (video_path : String) (env : ItemEnv) :
    Except (String × Bool) String :=
  match env.extractErr with
  | some (msg, left) => .error ("Ошибка извлечения аудио: " ++ msg, left)
  | none => .ok (temp_audio_path video_path)

/-- Lines 66-76: the worker passes `language=self.language` exactly when
`self.language` is truthy (a non-empty string) and different from `"auto"`,
and omits the argument otherwise. -/
def languageArg (language : Option String) : Option String :=
  match language with
  | some s => if s ≠ "" ∧ s ≠ "auto" then some s else none
  | none => none

/-- Lines 50-94, `transcribe_file`, translated branch by branch.

* The `try` body emits "В процессе", extracts audio when the extension is in
  the video allow-list, calls the engine, stores the transcript, sets status
  "Готово", emits "Готово", and then — still inside the `try` — removes the
  temp file when one was recorded.
* The `except` handler sets status "Ошибка", stores `str(e)`, emits
  "Ошибка: " followed by the message, and then removes the temp file inside
  a nested `try` whose failures are swallowed.
* When extraction itself raises, the local `temp_audio_path` is still `None`,
  so the handler does not attempt any removal and a partial file left by the
  failed extraction stays on disk.
* When the removal on the success path raises, control reaches the same
  `except` handler: the status already set to "Готово" is overwritten with
  "Ошибка" and the removal is retried (failing again, swallowed). -/
def transcribe_file (self : TranscriptionWorker) (file_item : FileItem)
    (index : Int) (env : ItemEnv) : ItemOutcome :=
  let file_path := file_item.file_path
  let ev0 := Event.progress_update index file_path "В процессе"
  let runEngine : String → Except String String := fun audio_path =>
    env.transcribe audio_path self.task (languageArg self.language)
  if isVideoFile file_path then
    match extract_audio_from_video file_path env with
    | .error (e, left) =>
      { item := { file_item with status := "Ошибка", error_message := e }
        tempFileExists := left
        events := [ev0, .progress_update index file_path ("Ошибка: " ++ e)] }
    | .ok audio_path =>
      match runEngine audio_path with
      | .error e =>
        { item := { file_item with status := "Ошибка", error_message := e }
          tempFileExists := env.removeErr.isSome
          events := [ev0, .progress_update index file_path ("Ошибка: " ++ e)] }
      | .ok text =>
        let done := { file_item with transcription := text, status := "Готово" }
        let ev1 := Event.progress_update index file_path "Готово"
        match env.removeErr with
        | none => { item := done, tempFileExists := false, events := [ev0, ev1] }
        | some e =>
          { item := { done with status := "Ошибка", error_message := e }
            tempFileExists := true
            events := [ev0, ev1, .progress_update index file_path ("Ошибка: " ++ e)] }
  else
    match runEngine file_path with
    | .error e =>
      { item := { file_item with status := "Ошибка", error_message := e }
        tempFileExists := false
        events := [ev0, .progress_update index file_path ("Ошибка: " ++ e)] }
    | .ok text =>
      { item := { file_item with transcription := text, status := "Готово" }
        tempFileExists := false
        events := [ev0, .progress_update index file_path "Готово"] }

example :
    (transcribe_file { files := [], model_name := "base", language := none, task := "transcribe" }
      { file_path := "video.mp4" } 0
      { extractErr := none, transcribe := fun _ _ _ => .ok "hello",
        removeErr := some "PermissionError" }).item.status = "Ошибка" := by
  rfl

example : isVideoFile "a/b/VIDEO.MP4" = true := by decide

example : isVideoFile "a/b/sound.mp3" = false := by decide

example : temp_audio_path "dir/movie.mp4" = "dir/movie_temp_audio.wav" := by rfl

/-! ### Double-precision model for the progress percentage

Line 113 computes `int((completed / total_files) * 100)` in Python, i.e. in
IEEE-754 binary64: a correctly rounded division, a correctly rounded
multiplication by the exact double `100`, and a truncation toward zero.  We
model binary64 values as rationals and correct rounding as round-to-nearest,
ties-to-even, at 53 significant bits with unbounded exponent range; this
agrees with IEEE binary64 on the whole normal range (all values this program
produces, for any worklist of fewer than `2 ^ 1022` items). -/

/-- Round a rational to the nearest integer, ties to even. -/
def rndE (q : ℚ) : ℤ :=
  let n := ⌊q⌋
  let f := q - n
  if f < 1 / 2 then n
  else if 1 / 2 < f then n + 1
  else if Even n then n else n + 1

/-- The integer `e` with `2 ^ e ≤ q < 2 ^ (e + 1)`, for `0 < q`. -/
def ilog2 (q : ℚ) : ℤ :=
  let k : ℤ := (Nat.log 2 q.num.natAbs : ℤ) - (Nat.log 2 q.den : ℤ)
  if (2 : ℚ) ^ k ≤ q then k else k - 1

/-- Round a nonnegative rational to the nearest 53-bit binary floating-point
value, ties to even (the rounding performed by every CPython binary64
operation on results in the normal range). -/
def fp53 (q : ℚ) : ℚ :=
  if q ≤ 0 then 0
  else (rndE (q * (2 : ℚ) ^ ((52 : ℤ) - ilog2 q)) : ℚ) * (2 : ℚ) ^ (ilog2 q - 52)

/-- Python `int(x)`: truncation toward zero. -/
def pyInt (q : ℚ) : ℤ :=
  if 0 ≤ q then ⌊q⌋ else -⌊-q⌋

/-- Line 113: `progress_percent = int((completed / total_files) * 100)`,
with the division and the multiplication performed in binary64. -/
def progress_percent (completed total_files : ℕ) : ℤ :=
  pyInt (fp53 (fp53 ((completed : ℚ) / (total_files : ℚ)) * 100))

/-! ### The run orchestration (`TranscriptionWorker.run`, lines 96-120)

`run` dispatches every item to a `ThreadPoolExecutor`; the pool workers emit
per-item signals while the run thread emits one aggregate-progress signal per
settled future.  Each item is mutated by exactly one worker, so the final
item states do not depend on scheduling; the order in which the emitted
signals interleave does.  The embedding therefore takes the interleaving as
part of the environment: an arbitrary merge of the workers' per-item event
lists with each other and with the run-thread progress events.  Every actual
schedule of the pool corresponds to one such merge. -/

/-- Merge event streams of several workers: at each step the schedule names
the worker whose next event is emitted (steps naming an exhausted or missing
worker are skipped); when the schedule runs out, remaining events are
flushed in worker order. -/
def nmerge : List ℕ → List (List Event) → List Event
  | [], ls => ls.flatten
  | i :: sched, ls =>
    match ls[i]? with
    | some (e :: rest) => e :: nmerge sched (ls.set i rest)
    | _ => nmerge sched ls

/-- Merge the (already merged) worker stream with the run-thread stream:
`true` steps take from the first stream, `false` steps from the second; when
the schedule runs out, the first stream is flushed before the second. -/
def merge2 : List Bool → List Event → List Event → List Event
  | [], xs, ys => xs ++ ys
  | true :: sched, x :: xs, ys => x :: merge2 sched xs ys
  | true :: _, [], ys => ys
  | false :: sched, xs, y :: ys => y :: merge2 sched xs ys
  | false :: _, xs, [] => xs

/-- Lines 105-109: `executor.submit(self.transcribe_file, file_item, idx)` for
`idx, file_item in enumerate(self.files)`, starting at index `i`. -/
def itemOutcomes (self : TranscriptionWorker) (envs : ℕ → ItemEnv) :
    ℕ → List FileItem → List ItemOutcome
  | _, [] => []
  | i, file_item :: rest =>
    transcribe_file self file_item i (envs i) :: itemOutcomes self envs (i + 1) rest

/-- Environment of one whole run: the outcome of `whisper.load_model`, the
per-item external outcomes, and the scheduling of the emitted signals. -/
structure RunEnv where
  /-- `whisper.load_model(self.model_name)` (line 99): `none` = a model is
  returned, `some msg` = an exception rendering to `msg` is raised. -/
  loadErr : Option String
  /-- External outcomes for the item submitted with index `i`. -/
  itemEnvs : ℕ → ItemEnv
  /-- Interleaving of the pool workers' emissions among each other. -/
  workerSched : List ℕ
  /-- Interleaving of the merged worker stream with the run-thread
  aggregate-progress emissions. -/
  mainSched : List Bool

/-- Observable outcome of one run: the final item states, the final on-disk
existence of each item's temporary audio file, and the emitted signals. -/
structure RunOutcome where
  files : List FileItem
  tempExists : List Bool
  events : List Event

/-- Lines 96-120, `TranscriptionWorker.run`.

* Line 98 emits the loading message; if `whisper.load_model` raises, the
  `except` handler (lines 118-120) emits a run-level "Ошибка" message and
  `finished`, touching no item.
* Otherwise every item is processed by `transcribe_file`; the `as_completed`
  loop (lines 111-114) runs `completed` from 1 to `total_files` and emits
  `progress_percent` after each settled future — for failed items just as
  for successful ones — and `finished` is emitted after all futures have
  settled, hence after every per-item signal. -/
def TranscriptionWorker.run (self : TranscriptionWorker) (env : RunEnv) : RunOutcome :=
  match env.loadErr with
  | some e =>
    { files := self.files
      tempExists := List.replicate self.files.length false
      events := [.progress_update (-1) "Загрузка Whisper..." "Загрузка",
                 .progress_update (-1) ("Ошибка: " ++ e) "Ошибка",
                 .finished] }
  | none =>
    let outcomes := itemOutcomes self env.itemEnvs 0 self.files
    let total_files := self.files.length
    let progressEvents := (List.range total_files).map
      (fun j => Event.file_progress (progress_percent (j + 1) total_files))
    { files := outcomes.map (·.item)
      tempExists := outcomes.map (·.tempFileExists)
      events := [.progress_update (-1) "Загрузка Whisper..." "Загрузка",
                 .progress_update (-1) "Модель загружена" "Готово"]
        ++ merge2 env.mainSched
             (nmerge env.workerSched (outcomes.map (·.events))) progressEvents
        ++ [.finished] }

/-! ### The application object (`TranscriberApp`) -/

/-- The effect of one `start_transcription` call beyond the state change. -/
inductive StartAction where
  /-- Line 284: warning message box "Нет файлов", request dropped. -/
  | warnNoFiles
  /-- Line 288: warning message box "Транскрипция уже выполняется.",
  request dropped. -/
  | warnBusy
  /-- Line 308-312: a new `TranscriptionWorker` is constructed and started. -/
  | started (worker : TranscriptionWorker)
deriving DecidableEq

/-- The `TranscriberApp` state read and written by `start_transcription`:
the worklist, whether `self.worker` exists and `isRunning()`, and the GUI
configuration inputs. -/
structure TranscriberApp where
  files : List FileItem
  workerIsRunning : Bool
  model_combo : String
  language_combo : String
  translate_checked : Bool
deriving DecidableEq

/-- Lines 282-312, `start_transcription`.

* `if not self.files`: warning, return (state untouched).
* `if self.worker and self.worker.isRunning()`: warning, return (state
  untouched, no worker constructed).
* Otherwise every item is reset to Pending with empty transcription and
  error, and a new worker is constructed from the GUI configuration
  (`language == "auto"` becomes `None`) and started. -/
def start_transcription (self : TranscriberApp) : TranscriberApp × StartAction :=
  if self.files = [] then (self, .warnNoFiles)
  else if self.workerIsRunning then (self, .warnBusy)
  else
    let files' := self.files.map fun f =>
      { f with status := "Ожидание", transcription := "", error_message := "" }
    let language := if self.language_combo = "auto" then none else some self.language_combo
    let task := if self.translate_checked then "translate" else "transcribe"
    ({ self with files := files', workerIsRunning := true },
     .started { files := files', model_name := self.model_combo,
                language := language, task := task })

/-! ### Interleaving model of the engine calls (claim C4)

`transcribe_file` invokes `self.model.transcribe` (lines 66-76) directly from
the pool worker threads.  `TranscriptionWorker` holds no lock, semaphore or
queue — the only synchronization in `run` is the pool itself, which bounds
the number of simultaneously running workers by `max_workers` (2 by
default) but in no way serializes what the workers do.  We model each pool
worker at the granularity of its engine call: a worker is before, inside, or
after its call into `self.model.transcribe`, and — exactly because the
source provides no lock — a worker that is before its call can always enter
it, whatever the other workers are doing. -/

/-- Program point of one pool worker relative to its engine call. -/
inductive WorkerPC where
  | beforeEngine
  | inEngine
  | afterEngine
deriving DecidableEq

/-- One scheduler step of the pool: some worker enters its (unguarded)
engine call, or some worker returns from it. -/
inductive EngineStep : List WorkerPC → List WorkerPC → Prop where
  | enter (l : List WorkerPC) (i : ℕ) (h : l[i]? = some .beforeEngine) :
      EngineStep l (l.set i .inEngine)
  | leave (l : List WorkerPC) (i : ℕ) (h : l[i]? = some .inEngine) :
      EngineStep l (l.set i .afterEngine)

/-- States of the pool reachable by interleaving the workers. -/
def EngineReachable : List WorkerPC → List WorkerPC → Prop :=
  Relation.ReflTransGen EngineStep

/-! ### Case equations for `transcribe_file` -/

/-- The aggregate-progress payload of an event, when it has one. -/
def getFP : Event → Option Int
  | .file_progress p => some p
  | _ => none

theorem tf_video_extract_fail (self : TranscriptionWorker) (fi : FileItem)
    (i : Int) (env : ItemEnv) (m : String) (left : Bool)
    (hv : isVideoFile fi.file_path = true) (he : env.extractErr = some (m, left)) :
    transcribe_file self fi i env =
      { item := { fi with status := "Ошибка", error_message := "Ошибка извлечения аудио: " ++ m }
        tempFileExists := left
        events := [.progress_update i fi.file_path "В процессе",
                   .progress_update i fi.file_path
                     ("Ошибка: " ++ ("Ошибка извлечения аудио: " ++ m))] } := by
  unfold transcribe_file extract_audio_from_video
  simp [hv, he]

theorem tf_video_engine_fail (self : TranscriptionWorker) (fi : FileItem)
    (i : Int) (env : ItemEnv) (e : String)
    (hv : isVideoFile fi.file_path = true) (he : env.extractErr = none)
    (ht : env.transcribe (temp_audio_path fi.file_path) self.task
        (languageArg self.language) = .error e) :
    transcribe_file self fi i env =
      { item := { fi with status := "Ошибка", error_message := e }
        tempFileExists := env.removeErr.isSome
        events := [.progress_update i fi.file_path "В процессе",
                   .progress_update i fi.file_path ("Ошибка: " ++ e)] } := by
  unfold transcribe_file extract_audio_from_video
  simp [hv, he, ht]

theorem tf_video_ok_remove_ok (self : TranscriptionWorker) (fi : FileItem)
    (i : Int) (env : ItemEnv) (text : String)
    (hv : isVideoFile fi.file_path = true) (he : env.extractErr = none)
    (ht : env.transcribe (temp_audio_path fi.file_path) self.task
        (languageArg self.language) = .ok text)
    (hr : env.removeErr = none) :
    transcribe_file self fi i env =
      { item := { fi with transcription := text, status := "Готово" }
        tempFileExists := false
        events := [.progress_update i fi.file_path "В процессе",
                   .progress_update i fi.file_path "Готово"] } := by
  unfold transcribe_file extract_audio_from_video
  simp [hv, he, ht, hr]

theorem tf_video_ok_remove_fail (self : TranscriptionWorker) (fi : FileItem)
    (i : Int) (env : ItemEnv) (text e : String)
    (hv : isVideoFile fi.file_path = true) (he : env.extractErr = none)
    (ht : env.transcribe (temp_audio_path fi.file_path) self.task
        (languageArg self.language) = .ok text)
    (hr : env.removeErr = some e) :
    transcribe_file self fi i env =
      { item := { fi with transcription := text, status := "Ошибка", error_message := e }
        tempFileExists := true
        events := [.progress_update i fi.file_path "В процессе",
                   .progress_update i fi.file_path "Готово",
                   .progress_update i fi.file_path ("Ошибка: " ++ e)] } := by
  unfold transcribe_file extract_audio_from_video
  simp [hv, he, ht, hr]

theorem tf_audio_fail (self : TranscriptionWorker) (fi : FileItem)
    (i : Int) (env : ItemEnv) (e : String)
    (hv : isVideoFile fi.file_path = false)
    (ht : env.transcribe fi.file_path self.task
        (languageArg self.language) = .error e) :
    transcribe_file self fi i env =
      { item := { fi with status := "Ошибка", error_message := e }
        tempFileExists := false
        events := [.progress_update i fi.file_path "В процессе",
                   .progress_update i fi.file_path ("Ошибка: " ++ e)] } := by
  unfold transcribe_file
  simp [hv, ht]

theorem tf_audio_ok (self : TranscriptionWorker) (fi : FileItem)
    (i : Int) (env : ItemEnv) (text : String)
    (hv : isVideoFile fi.file_path = false)
    (ht : env.transcribe fi.file_path self.task
        (languageArg self.language) = .ok text) :
    transcribe_file self fi i env =
      { item := { fi with transcription := text, status := "Готово" }
        tempFileExists := false
        events := [.progress_update i fi.file_path "В процессе",
                   .progress_update i fi.file_path "Готово"] } := by
  unfold transcribe_file
  simp [hv, ht]

/-- Every item settles with status "Готово" or "Ошибка", whatever the
environment does. -/
theorem transcribe_file_status (self : TranscriptionWorker) (fi : FileItem)
    (i : Int) (env : ItemEnv) :
    (transcribe_file self fi i env).item.status = "Готово" ∨
    (transcribe_file self fi i env).item.status = "Ошибка" := by
  cases hv : isVideoFile fi.file_path
  · cases ht : env.transcribe fi.file_path self.task (languageArg self.language) with
    | error e => rw [tf_audio_fail self fi i env e hv ht]; right; rfl
    | ok text => rw [tf_audio_ok self fi i env text hv ht]; left; rfl
  · cases he : env.extractErr with
    | some p =>
      rw [tf_video_extract_fail self fi i env p.1 p.2 hv (by rw [he])]
      right; rfl
    | none =>
      cases ht : env.transcribe (temp_audio_path fi.file_path) self.task
          (languageArg self.language) with
      | error e => rw [tf_video_engine_fail self fi i env e hv he ht]; right; rfl
      | ok text =>
        cases hr : env.removeErr with
        | none => rw [tf_video_ok_remove_ok self fi i env text hv he ht hr]; left; rfl
        | some e => rw [tf_video_ok_remove_fail self fi i env text e hv he ht hr]; right; rfl

/-- A pool worker emits only `progress_update` signals; in particular no
aggregate-progress payload comes from a worker. -/
theorem transcribe_file_events_fp (self : TranscriptionWorker) (fi : FileItem)
    (i : Int) (env : ItemEnv) :
    ∀ ev ∈ (transcribe_file self fi i env).events, getFP ev = none := by
  cases hv : isVideoFile fi.file_path
  · cases ht : env.transcribe fi.file_path self.task (languageArg self.language) with
    | error e => rw [tf_audio_fail self fi i env e hv ht]; intro ev hev; simp at hev
                 rcases hev with h | h <;> simp [h, getFP]
    | ok text => rw [tf_audio_ok self fi i env text hv ht]; intro ev hev; simp at hev
                 rcases hev with h | h <;> simp [h, getFP]
  · cases he : env.extractErr with
    | some p =>
      rw [tf_video_extract_fail self fi i env p.1 p.2 hv (by rw [he])]
      intro ev hev; simp at hev
      rcases hev with h | h <;> simp [h, getFP]
    | none =>
      cases ht : env.transcribe (temp_audio_path fi.file_path) self.task
          (languageArg self.language) with
      | error e =>
        rw [tf_video_engine_fail self fi i env e hv he ht]
        intro ev hev; simp at hev
        rcases hev with h | h <;> simp [h, getFP]
      | ok text =>
        cases hr : env.removeErr with
        | none =>
          rw [tf_video_ok_remove_ok self fi i env text hv he ht hr]
          intro ev hev; simp at hev
          rcases hev with h | h <;> simp [h, getFP]
        | some e =>
          rw [tf_video_ok_remove_fail self fi i env text e hv he ht hr]
          intro ev hev; simp at hev
          rcases hev with h | h | h <;> simp [h, getFP]

/-! ### Structural lemmas about the run -/

theorem mem_nmerge (sched : List ℕ) (ls : List (List Event)) (x : Event)
    (hx : x ∈ nmerge sched ls) : ∃ l ∈ ls, x ∈ l := by
  induction sched generalizing ls with
  | nil => simpa [nmerge] using hx
  | cons i sched ih =>
    rcases hgl : ls[i]? with _ | ⟨_ | ⟨e, rest⟩⟩ <;>
      simp only [nmerge, hgl] at hx
    · exact ih ls hx
    · exact ih ls hx
    · rcases List.mem_cons.mp hx with hxe | hxr
      · exact ⟨e :: rest, List.getElem?_mem hgl, by simp [hxe]⟩
      · obtain ⟨l, hl, hxl⟩ := ih _ hxr
        rcases List.mem_or_eq_of_mem_set hl with h | h
        · exact ⟨l, h, hxl⟩
        · exact ⟨e :: rest, List.getElem?_mem hgl, by simp [h ▸ hxl]⟩

theorem merge2_filterMap (f : Event → Option Int) (sched : List Bool)
    (A B : List Event) (hA : ∀ x ∈ A, f x = none) :
    (merge2 sched A B).filterMap f = B.filterMap f := by
  induction sched generalizing A B with
  | nil => simp [merge2, List.filterMap_eq_nil_iff.mpr hA]
  | cons b sched ih =>
    cases b
    · cases B with
      | nil => simp [merge2, List.filterMap_eq_nil_iff.mpr hA]
      | cons y ys =>
        simp only [merge2, List.filterMap_cons]
        cases f y <;> simp [ih _ _ hA]
    · cases A with
      | nil => simp [merge2]
      | cons x xs =>
        simp only [merge2, List.filterMap_cons, hA x (by simp)]
        exact ih xs B fun z hz => hA z (by simp [hz])

theorem mem_itemOutcomes (self : TranscriptionWorker) (envs : ℕ → ItemEnv)
    (i : ℕ) (fs : List FileItem) (o : ItemOutcome)
    (ho : o ∈ itemOutcomes self envs i fs) :
    ∃ fi j, o = transcribe_file self fi (j : ℕ) (envs j) ∧ fi ∈ fs := by
  induction fs generalizing i with
  | nil => simp [itemOutcomes] at ho
  | cons fi rest ih =>
    simp only [itemOutcomes, List.mem_cons] at ho
    rcases ho with h | h
    · exact ⟨fi, i, by simpa using h, by simp⟩
    · obtain ⟨fi', j, h1, h2⟩ := ih (i + 1) h
      exact ⟨fi', j, h1, by simp [h2]⟩

theorem length_itemOutcomes (self : TranscriptionWorker) (envs : ℕ → ItemEnv)
    (i : ℕ) (fs : List FileItem) :
    (itemOutcomes self envs i fs).length = fs.length := by
  induction fs generalizing i with
  | nil => rfl
  | cons fi rest ih => simp [itemOutcomes, ih]

/-- The aggregate-progress payloads of a run that loaded its model: exactly
one per item, in settle order, with the value of line 113 — regardless of
how the schedules interleave the signals. -/
theorem run_progress_values (self : TranscriptionWorker) (env : RunEnv)
    (h : env.loadErr = none) :
    (self.run env).events.filterMap getFP
      = (List.range self.files.length).map
          (fun j => progress_percent (j + 1) self.files.length) := by
  have hA : ∀ x ∈ nmerge env.workerSched
      ((itemOutcomes self env.itemEnvs 0 self.files).map (·.events)),
      getFP x = none := by
    intro x hx
    obtain ⟨l, hl, hxl⟩ := mem_nmerge _ _ _ hx
    obtain ⟨o, ho, rfl⟩ := List.mem_map.mp hl
    obtain ⟨fi, j, rfl, _⟩ := mem_itemOutcomes _ _ _ _ _ ho
    exact transcribe_file_events_fp _ _ _ _ x hxl
  simp only [TranscriptionWorker.run, h]
  rw [List.filterMap_append, List.filterMap_append,
    merge2_filterMap getFP _ _ _ hA]
  simp [getFP, List.filterMap_map, Function.comp_def]
  exact congrFun (List.filterMap_eq_map fun j => progress_percent (j + 1) self.files.length) _

/-! ### Facts about the binary64 model -/

theorem floor_le_rndE (q : ℚ) : ⌊q⌋ ≤ rndE q := by
  unfold rndE
  dsimp only
  split_ifs <;> omega

theorem rndE_le_floor_add_one (q : ℚ) : rndE q ≤ ⌊q⌋ + 1 := by
  unfold rndE
  dsimp only
  split_ifs <;> omega

theorem rndE_eq_of (q : ℚ) (n : ℤ) (h1 : (n : ℚ) ≤ q) (h2 : q - n < 1 / 2) :
    rndE q = n := by
  have hf : ⌊q⌋ = n := Int.floor_eq_iff.mpr ⟨h1, by linarith⟩
  unfold rndE
  dsimp only
  rw [hf, if_pos (by linarith)]

theorem rndE_intCast (n : ℤ) : rndE (n : ℚ) = n :=
  rndE_eq_of _ n (le_refl _) (by norm_num)

theorem rndE_mono (x y : ℚ) (h : x ≤ y) : rndE x ≤ rndE y := by
  by_cases hf : ⌊x⌋ = ⌊y⌋
  · have hd : x - (⌊x⌋ : ℚ) ≤ y - (⌊x⌋ : ℚ) := by linarith
    unfold rndE
    dsimp only
    rw [hf] at hd ⊢
    split_ifs <;> first | omega | linarith
  · have h3 : ⌊x⌋ < ⌊y⌋ := lt_of_le_of_ne (Int.floor_le_floor h) hf
    have h1 := rndE_le_floor_add_one x
    have h2 := floor_le_rndE y
    omega

theorem natLog_bounds (n : ℕ) (hn : n ≠ 0) :
    (2 : ℚ) ^ ((Nat.log 2 n : ℕ) : ℤ) ≤ (n : ℚ) ∧
      (n : ℚ) < (2 : ℚ) ^ (((Nat.log 2 n : ℕ) : ℤ) + 1) := by
  constructor
  · have h := Nat.pow_log_le_self 2 hn
    have h2 : ((2 ^ Nat.log 2 n : ℕ) : ℚ) ≤ (n : ℚ) := by exact_mod_cast h
    simpa [zpow_natCast] using h2
  · have h := Nat.lt_pow_succ_log_self (by norm_num : 1 < 2) n
    have h2 : (n : ℚ) < ((2 ^ (Nat.log 2 n + 1) : ℕ) : ℚ) := by exact_mod_cast h
    have e : ((2 ^ (Nat.log 2 n + 1) : ℕ) : ℚ)
        = (2 : ℚ) ^ (((Nat.log 2 n : ℕ) : ℤ) + 1) := by
      push_cast
      rw [← zpow_natCast]
      push_cast
      ring_nf
    rwa [e] at h2

theorem ilog2_spec (q : ℚ) (hq : 0 < q) :
    (2 : ℚ) ^ ilog2 q ≤ q ∧ q < (2 : ℚ) ^ (ilog2 q + 1) := by
  have hqnum : 0 < q.num := Rat.num_pos.mpr hq
  have ha0 : q.num.natAbs ≠ 0 := Int.natAbs_ne_zero.mpr hqnum.ne'
  have hb0 : q.den ≠ 0 := q.den_nz
  have haQ : ((q.num.natAbs : ℕ) : ℚ) = (q.num : ℚ) := by
    rw [Int.cast_natAbs]
    exact_mod_cast abs_of_pos hqnum
  have hq_eq : ((q.num.natAbs : ℕ) : ℚ) / ((q.den : ℕ) : ℚ) = q := by
    rw [haQ]
    exact Rat.num_div_den q
  have haQ0 : (0 : ℚ) < ((q.num.natAbs : ℕ) : ℚ) := by
    exact_mod_cast Nat.pos_of_ne_zero ha0
  have hbQ0 : (0 : ℚ) < ((q.den : ℕ) : ℚ) := by
    exact_mod_cast Nat.pos_of_ne_zero hb0
  obtain ⟨hla1, hla2⟩ := natLog_bounds q.num.natAbs ha0
  obtain ⟨hlb1, hlb2⟩ := natLog_bounds q.den hb0
  have h2pos : ∀ z : ℤ, (0 : ℚ) < 2 ^ z := fun z => zpow_pos (by norm_num) z
  have hlower : (2 : ℚ) ^ ((Nat.log 2 q.num.natAbs : ℤ) - (Nat.log 2 q.den : ℤ) - 1) < q := by
    have e1 : (2 : ℚ) ^ ((Nat.log 2 q.num.natAbs : ℤ) - (Nat.log 2 q.den : ℤ) - 1)
        = (2 : ℚ) ^ ((Nat.log 2 q.num.natAbs : ℕ) : ℤ)
          / (2 : ℚ) ^ (((Nat.log 2 q.den : ℕ) : ℤ) + 1) := by
      rw [← zpow_sub₀ (by norm_num : (2 : ℚ) ≠ 0)]
      congr 1
      ring
    have step : (2 : ℚ) ^ ((Nat.log 2 q.num.natAbs : ℕ) : ℤ)
          / (2 : ℚ) ^ (((Nat.log 2 q.den : ℕ) : ℤ) + 1)
        < ((q.num.natAbs : ℕ) : ℚ) / ((q.den : ℕ) : ℚ) :=
      lt_of_le_of_lt
        ((div_le_div_iff_of_pos_right (h2pos _)).mpr hla1)
        (div_lt_div_of_pos_left haQ0 hbQ0 hlb2)
    rw [e1]
    rw [hq_eq] at step
    exact step
  have hupper : q < (2 : ℚ) ^ ((Nat.log 2 q.num.natAbs : ℤ) - (Nat.log 2 q.den : ℤ) + 1) := by
    have e1 : (2 : ℚ) ^ ((Nat.log 2 q.num.natAbs : ℤ) - (Nat.log 2 q.den : ℤ) + 1)
        = (2 : ℚ) ^ (((Nat.log 2 q.num.natAbs : ℕ) : ℤ) + 1)
          / (2 : ℚ) ^ ((Nat.log 2 q.den : ℕ) : ℤ) := by
      rw [← zpow_sub₀ (by norm_num : (2 : ℚ) ≠ 0)]
      congr 1
      ring
    have step : ((q.num.natAbs : ℕ) : ℚ) / ((q.den : ℕ) : ℚ)
        < (2 : ℚ) ^ (((Nat.log 2 q.num.natAbs : ℕ) : ℤ) + 1)
          / (2 : ℚ) ^ ((Nat.log 2 q.den : ℕ) : ℤ) :=
      lt_of_lt_of_le
        ((div_lt_div_iff_of_pos_right hbQ0).mpr hla2)
        (div_le_div_of_nonneg_left (h2pos _).le (h2pos _) hlb1)
    rw [e1]
    rw [hq_eq] at step
    exact step
  unfold ilog2
  dsimp only
  split_ifs with h
  · exact ⟨h, hupper⟩
  · push_neg at h
    refine ⟨hlower.le, ?_⟩
    have e : (Nat.log 2 q.num.natAbs : ℤ) - (Nat.log 2 q.den : ℤ) - 1 + 1
        = (Nat.log 2 q.num.natAbs : ℤ) - (Nat.log 2 q.den : ℤ) := by ring
    rw [e]
    exact h

theorem ilog2_unique (q : ℚ) (e : ℤ) (hq : 0 < q)
    (h1 : (2 : ℚ) ^ e ≤ q) (h2 : q < (2 : ℚ) ^ (e + 1)) : ilog2 q = e := by
  obtain ⟨g1, g2⟩ := ilog2_spec q hq
  by_contra hne
  rcases lt_or_gt_of_ne hne with h | h
  · have hle : (2 : ℚ) ^ (ilog2 q + 1) ≤ 2 ^ e :=
      zpow_le_zpow_right₀ (by norm_num) (by omega)
    linarith
  · have hle : (2 : ℚ) ^ (e + 1) ≤ 2 ^ ilog2 q :=
      zpow_le_zpow_right₀ (by norm_num) (by omega)
    linarith

theorem fp53_of_pos (q : ℚ) (hq : 0 < q) :
    fp53 q = (rndE (q * (2 : ℚ) ^ ((52 : ℤ) - ilog2 q)) : ℚ) * (2 : ℚ) ^ (ilog2 q - 52) := by
  unfold fp53
  rw [if_neg (not_le.mpr hq)]

theorem fp53_scaled_bounds (q : ℚ) (hq : 0 < q) :
    (2 : ℚ) ^ (52 : ℤ) ≤ q * (2 : ℚ) ^ ((52 : ℤ) - ilog2 q) ∧
      q * (2 : ℚ) ^ ((52 : ℤ) - ilog2 q) < (2 : ℚ) ^ (53 : ℤ) := by
  obtain ⟨h1, h2⟩ := ilog2_spec q hq
  have hp : (0 : ℚ) < (2 : ℚ) ^ ((52 : ℤ) - ilog2 q) := zpow_pos (by norm_num) _
  constructor
  · calc (2 : ℚ) ^ (52 : ℤ)
        = (2 : ℚ) ^ ilog2 q * (2 : ℚ) ^ ((52 : ℤ) - ilog2 q) := by
          rw [← zpow_add₀ (by norm_num : (2 : ℚ) ≠ 0)]
          congr 1
          ring
      _ ≤ q * (2 : ℚ) ^ ((52 : ℤ) - ilog2 q) := mul_le_mul_of_nonneg_right h1 hp.le
  · calc q * (2 : ℚ) ^ ((52 : ℤ) - ilog2 q)
        < (2 : ℚ) ^ (ilog2 q + 1) * (2 : ℚ) ^ ((52 : ℤ) - ilog2 q) :=
          mul_lt_mul_of_pos_right h2 hp
      _ = (2 : ℚ) ^ (53 : ℤ) := by
          rw [← zpow_add₀ (by norm_num : (2 : ℚ) ≠ 0)]
          congr 1
          ring

theorem fp53_lower (q : ℚ) (hq : 0 < q) : (2 : ℚ) ^ ilog2 q ≤ fp53 q := by
  rw [fp53_of_pos q hq]
  have hs := (fp53_scaled_bounds q hq).1
  have hfl : (2 ^ 52 : ℤ) ≤ ⌊q * (2 : ℚ) ^ ((52 : ℤ) - ilog2 q)⌋ := by
    apply Int.le_floor.mpr
    calc ((2 ^ 52 : ℤ) : ℚ) = (2 : ℚ) ^ (52 : ℤ) := by norm_num
      _ ≤ _ := hs
  have hr : (2 : ℚ) ^ (52 : ℤ) ≤ (rndE (q * (2 : ℚ) ^ ((52 : ℤ) - ilog2 q)) : ℚ) := by
    have h := le_trans hfl (floor_le_rndE _)
    calc (2 : ℚ) ^ (52 : ℤ) = ((2 ^ 52 : ℤ) : ℚ) := by norm_num
      _ ≤ _ := by exact_mod_cast h
  calc (2 : ℚ) ^ ilog2 q
      = (2 : ℚ) ^ (52 : ℤ) * (2 : ℚ) ^ (ilog2 q - 52) := by
        rw [← zpow_add₀ (by norm_num : (2 : ℚ) ≠ 0)]
        congr 1
        ring
    _ ≤ _ := mul_le_mul_of_nonneg_right hr (zpow_pos (by norm_num) _).le

theorem fp53_upper (q : ℚ) (hq : 0 < q) : fp53 q ≤ (2 : ℚ) ^ (ilog2 q + 1) := by
  rw [fp53_of_pos q hq]
  have hs := (fp53_scaled_bounds q hq).2
  have hfl : ⌊q * (2 : ℚ) ^ ((52 : ℤ) - ilog2 q)⌋ < (2 ^ 53 : ℤ) := by
    apply Int.floor_lt.mpr
    calc q * (2 : ℚ) ^ ((52 : ℤ) - ilog2 q) < (2 : ℚ) ^ (53 : ℤ) := hs
      _ = ((2 ^ 53 : ℤ) : ℚ) := by norm_num
  have hr : (rndE (q * (2 : ℚ) ^ ((52 : ℤ) - ilog2 q)) : ℚ) ≤ (2 : ℚ) ^ (53 : ℤ) := by
    have h : rndE (q * (2 : ℚ) ^ ((52 : ℤ) - ilog2 q)) ≤ (2 ^ 53 : ℤ) := by
      have := rndE_le_floor_add_one (q * (2 : ℚ) ^ ((52 : ℤ) - ilog2 q))
      omega
    calc (rndE (q * (2 : ℚ) ^ ((52 : ℤ) - ilog2 q)) : ℚ)
        ≤ ((2 ^ 53 : ℤ) : ℚ) := by exact_mod_cast h
      _ = (2 : ℚ) ^ (53 : ℤ) := by norm_num
  calc (rndE (q * (2 : ℚ) ^ ((52 : ℤ) - ilog2 q)) : ℚ) * (2 : ℚ) ^ (ilog2 q - 52)
      ≤ (2 : ℚ) ^ (53 : ℤ) * (2 : ℚ) ^ (ilog2 q - 52) :=
        mul_le_mul_of_nonneg_right hr (zpow_pos (by norm_num) _).le
    _ = (2 : ℚ) ^ (ilog2 q + 1) := by
        rw [← zpow_add₀ (by norm_num : (2 : ℚ) ≠ 0)]
        congr 1
        ring

theorem fp53_pos (q : ℚ) (hq : 0 < q) : 0 < fp53 q :=
  lt_of_lt_of_le (zpow_pos (by norm_num) _) (fp53_lower q hq)

theorem fp53_mono (x y : ℚ) (hx : 0 < x) (hxy : x ≤ y) : fp53 x ≤ fp53 y := by
  have hy : 0 < y := lt_of_lt_of_le hx hxy
  have hee : ilog2 x ≤ ilog2 y := by
    by_contra hcon
    push_neg at hcon
    have h1 : (2 : ℚ) ^ (ilog2 y + 1) ≤ 2 ^ ilog2 x :=
      zpow_le_zpow_right₀ (by norm_num) (by omega)
    have h2 := (ilog2_spec y hy).2
    have h3 := (ilog2_spec x hx).1
    linarith
  rcases eq_or_lt_of_le hee with heq | hlt
  · rw [fp53_of_pos x hx, fp53_of_pos y hy, heq]
    apply mul_le_mul_of_nonneg_right _ (zpow_pos (by norm_num : (0:ℚ) < 2) _).le
    have harg : x * (2 : ℚ) ^ ((52 : ℤ) - ilog2 y) ≤ y * (2 : ℚ) ^ ((52 : ℤ) - ilog2 y) :=
      mul_le_mul_of_nonneg_right hxy (zpow_pos (by norm_num) _).le
    exact_mod_cast rndE_mono _ _ harg
  · calc fp53 x ≤ (2 : ℚ) ^ (ilog2 x + 1) := fp53_upper x hx
      _ ≤ (2 : ℚ) ^ ilog2 y := zpow_le_zpow_right₀ (by norm_num) (by omega)
      _ ≤ fp53 y := fp53_lower y hy

theorem fp53_eval (q : ℚ) (e m : ℤ) (hq : 0 < q) (h1 : (2 : ℚ) ^ e ≤ q)
    (h2 : q < (2 : ℚ) ^ (e + 1))
    (hm : rndE (q * (2 : ℚ) ^ ((52 : ℤ) - e)) = m) :
    fp53 q = (m : ℚ) * (2 : ℚ) ^ (e - 52) := by
  rw [fp53_of_pos q hq, ilog2_unique q e hq h1 h2, hm]

theorem fp53_one : fp53 1 = 1 := by
  have hm : rndE ((1 : ℚ) * (2 : ℚ) ^ ((52 : ℤ) - 0)) = 2 ^ 52 := by
    have e : (1 : ℚ) * (2 : ℚ) ^ ((52 : ℤ) - 0) = ((2 ^ 52 : ℤ) : ℚ) := by norm_num
    rw [e, rndE_intCast]
  have h := fp53_eval 1 0 (2 ^ 52) one_pos (by norm_num) (by norm_num) hm
  rw [h]
  norm_num

theorem fp53_hundred : fp53 100 = 100 := by
  have hm : rndE ((100 : ℚ) * (2 : ℚ) ^ ((52 : ℤ) - 6)) = 100 * 2 ^ 46 := by
    have e : (100 : ℚ) * (2 : ℚ) ^ ((52 : ℤ) - 6) = ((100 * 2 ^ 46 : ℤ) : ℚ) := by norm_num
    rw [e, rndE_intCast]
  have h := fp53_eval 100 6 (100 * 2 ^ 46) (by norm_num) (by norm_num) (by norm_num) hm
  rw [h]
  norm_num

theorem progress_percent_mono (j k n : ℕ) (hj : 0 < j) (hjk : j ≤ k) :
    progress_percent j n ≤ progress_percent k n := by
  rcases Nat.eq_zero_or_pos n with hn | hn
  · subst hn
    simp [progress_percent, fp53, pyInt]
  · have hnQ : (0 : ℚ) < (n : ℚ) := by exact_mod_cast hn
    have hjQ : (0 : ℚ) < (j : ℚ) := by exact_mod_cast hj
    have hx : (0 : ℚ) < (j : ℚ) / (n : ℚ) := by positivity
    have hxy : (j : ℚ) / (n : ℚ) ≤ (k : ℚ) / (n : ℚ) :=
      (div_le_div_iff_of_pos_right hnQ).mpr (by exact_mod_cast hjk)
    have h1 := fp53_mono _ _ hx hxy
    have h2 : (0 : ℚ) < fp53 ((j : ℚ) / (n : ℚ)) := fp53_pos _ hx
    have h3 : fp53 ((j : ℚ) / (n : ℚ)) * 100 ≤ fp53 ((k : ℚ) / (n : ℚ)) * 100 := by
      linarith
    have h4 : (0 : ℚ) < fp53 ((j : ℚ) / (n : ℚ)) * 100 := by linarith
    have h5 := fp53_mono _ _ h4 h3
    have hk0 : (0 : ℚ) < (k : ℚ) / (n : ℚ) := lt_of_lt_of_le hx hxy
    have h6 : (0 : ℚ) < fp53 ((k : ℚ) / (n : ℚ)) * 100 := by
      have := fp53_pos _ hk0
      linarith
    unfold progress_percent pyInt
    rw [if_pos (fp53_pos _ h4).le, if_pos (fp53_pos _ h6).le]
    exact Int.floor_le_floor h5

theorem progress_percent_self (n : ℕ) (hn : 0 < n) : progress_percent n n = 100 := by
  unfold progress_percent
  have h1 : (n : ℚ) / (n : ℚ) = 1 := div_self (by exact_mod_cast hn.ne')
  rw [h1, fp53_one, one_mul, fp53_hundred]
  unfold pyInt
  rw [if_pos (by norm_num)]
  rw [show (100 : ℚ) = ((100 : ℤ) : ℚ) by norm_num, Int.floor_intCast]

theorem fp53_29_div_100 :
    fp53 ((29 : ℚ) / 100) = (5224175567749775 : ℚ) / 18014398509481984 := by
  have hm : rndE ((29 : ℚ) / 100 * (2 : ℚ) ^ ((52 : ℤ) - (-2))) = 5224175567749775 := by
    apply rndE_eq_of
    · norm_num
    · norm_num
  have h := fp53_eval ((29 : ℚ) / 100) (-2) 5224175567749775 (by norm_num)
    (by norm_num) (by norm_num) hm
  rw [h]
  norm_num

theorem fp53_second_step :
    fp53 ((130604389193744375 : ℚ) / 4503599627370496)
      = (8162774324609023 : ℚ) / 281474976710656 := by
  have hm : rndE ((130604389193744375 : ℚ) / 4503599627370496 * (2 : ℚ) ^ ((52 : ℤ) - 4))
      = 8162774324609023 := by
    apply rndE_eq_of
    · norm_num
    · norm_num
  have h := fp53_eval _ 4 8162774324609023 (by norm_num) (by norm_num) (by norm_num) hm
  rw [h]
  norm_num

theorem progress_percent_29_100 : progress_percent 29 100 = 28 := by
  unfold progress_percent
  have hc : ((29 : ℕ) : ℚ) / ((100 : ℕ) : ℚ) = (29 : ℚ) / 100 := by norm_num
  rw [hc, fp53_29_div_100]
  have hmul : (5224175567749775 : ℚ) / 18014398509481984 * 100
      = (130604389193744375 : ℚ) / 4503599627370496 := by norm_num
  rw [hmul, fp53_second_step]
  unfold pyInt
  rw [if_pos (by norm_num)]
  rw [Int.floor_eq_iff]
  constructor <;> norm_num

theorem exact_truncation_29_100 : pyInt ((100 * 29 : ℚ) / 100) = 29 := by
  unfold pyInt
  rw [if_pos (by norm_num)]
  rw [show ((100 * 29 : ℚ) / 100) = ((29 : ℤ) : ℚ) by norm_num, Int.floor_intCast]

/-! ### Concrete sample inputs used by counterexamples and witnesses -/

/-- An environment in which every external call succeeds. -/
def okItemEnv : ItemEnv :=
  { extractErr := none, transcribe := fun _ _ _ => .ok "привет", removeErr := none }

/-- One pending audio item. -/
def sampleAudioItem : FileItem := { file_path := "interview.mp3" }

/-- A worker over that one audio item with the default configuration. -/
def sampleWorker : TranscriptionWorker :=
  { files := [sampleAudioItem], model_name := "base", language := none, task := "transcribe" }

/-- A run environment whose model load succeeds and whose items all succeed. -/
def sampleRunEnv : RunEnv :=
  { loadErr := none, itemEnvs := fun _ => okItemEnv, workerSched := [], mainSched := [] }

/-- A run environment whose model load fails. -/
def failLoadEnv : RunEnv :=
  { loadErr := some "CUDA out of memory", itemEnvs := fun _ => okItemEnv,
    workerSched := [], mainSched := [] }

/-- The extraction wrapper message is never the empty string. -/
theorem wrapped_extract_msg_ne (m : String) : "Ошибка извлечения аудио: " ++ m ≠ "" := by
  intro h
  have h2 := congrArg String.data h
  rw [String.data_append] at h2
  simp at h2

/-! ### Claim C1 -/

/-- Claim C1 states that a deletion failure after a successful transcription
is swallowed and the item stays Done.  The code contradicts this: on the
success path the `os.remove` of line 83 sits inside the `try`, so when it
raises, the `except` handler of lines 85-88 overwrites the already-set
"Готово" with "Ошибка" and records the deletion error as the failure
detail, while the transcript stays populated.  This theorem evaluates
`transcribe_file` at such an input: transcription succeeded with "hello
world", deletion raised "PermissionError", and the item ends "Ошибка" —
not "Готово" — with the deletion error as its error detail. -/
theorem c1_cleanup_failure_overwrites_success :
    (transcribe_file
        { files := [], model_name := "base", language := none, task := "transcribe" }
        { file_path := "clip.mp4" } 0
        { extractErr := none, transcribe := fun _ _ _ => .ok "hello world",
          removeErr := some "PermissionError" })
      = { item := { file_path := "clip.mp4", status := "Ошибка",
                    transcription := "hello world", error_message := "PermissionError" }
          tempFileExists := true
          events := [.progress_update 0 "clip.mp4" "В процессе",
                     .progress_update 0 "clip.mp4" "Готово",
                     .progress_update 0 "clip.mp4" "Ошибка: PermissionError"] }
    ∧ "Ошибка" ≠ "Готово" := by
  exact ⟨rfl, by decide⟩

/-! ### Claim C2 -/

/-- Counterexample to claim C2: a reachable run state in which one item has
BOTH a non-empty transcript and a non-empty error detail — the engine
succeeded, then the temp-file deletion raised, flipping the item to
"Ошибка" while the already-stored transcript stays. -/
theorem c2_counterexample :
    (TranscriptionWorker.run
        { files := [{ file_path := "clip.mkv" }], model_name := "base",
          language := none, task := "transcribe" }
        { loadErr := none
          itemEnvs := fun _ =>
            { extractErr := none, transcribe := fun _ _ _ => .ok "текст",
              removeErr := some "OSError: busy" }
          workerSched := [], mainSched := [] }).files
      = [{ file_path := "clip.mkv", status := "Ошибка",
           transcription := "текст", error_message := "OSError: busy" }]
    ∧ "текст" ≠ "" ∧ "OSError: busy" ≠ "" := by
  exact ⟨rfl, by decide, by decide⟩

/-- Well-formedness of the external outcomes assumed by the amended C2:
exception messages and engine transcripts are non-empty strings. -/
def EnvWF (env : ItemEnv) : Prop :=
  (∀ a t l e, env.transcribe a t l = .error e → e ≠ "") ∧
  (∀ a t l s, env.transcribe a t l = .ok s → s ≠ "") ∧
  (∀ m, env.removeErr = some m → m ≠ "")

/-- Claim C2, amended.  For an item that starts a run reset (empty transcript
and error detail), under non-empty external messages: a "Готово" item has a
non-empty transcript and an empty error detail; an "Ошибка" item has a
non-empty error detail; and the only way both fields end non-empty is the
cleanup defect of C1 — the item is then "Ошибка" and its removal outcome
was a failure. -/
theorem c2_amended (self : TranscriptionWorker) (fi : FileItem) (i : Int)
    (env : ItemEnv) (ht0 : fi.transcription = "") (he0 : fi.error_message = "")
    (hwf : EnvWF env) :
    ((transcribe_file self fi i env).item.status = "Готово" →
      (transcribe_file self fi i env).item.transcription ≠ "" ∧
      (transcribe_file self fi i env).item.error_message = "") ∧
    ((transcribe_file self fi i env).item.status = "Ошибка" →
      (transcribe_file self fi i env).item.error_message ≠ "") ∧
    ((transcribe_file self fi i env).item.transcription ≠ "" ∧
      (transcribe_file self fi i env).item.error_message ≠ "" →
      (transcribe_file self fi i env).item.status = "Ошибка" ∧
      env.removeErr.isSome = true) := by
  obtain ⟨hwf1, hwf2, hwf3⟩ := hwf
  cases hv : isVideoFile fi.file_path
  · cases ht : env.transcribe fi.file_path self.task (languageArg self.language) with
    | error e =>
      rw [tf_audio_fail self fi i env e hv ht]
      exact ⟨fun h => absurd h (by decide : ("Ошибка" : String) ≠ "Готово"),
        fun _ => hwf1 _ _ _ _ ht, fun h => absurd ht0 h.1⟩
    | ok text =>
      rw [tf_audio_ok self fi i env text hv ht]
      exact ⟨fun _ => ⟨hwf2 _ _ _ _ ht, he0⟩,
        fun h => absurd h (by decide : ("Готово" : String) ≠ "Ошибка"),
        fun h => absurd he0 h.2⟩
  · cases he : env.extractErr with
    | some p =>
      rw [tf_video_extract_fail self fi i env p.1 p.2 hv (by rw [he])]
      exact ⟨fun h => absurd h (by decide : ("Ошибка" : String) ≠ "Готово"),
        fun _ => wrapped_extract_msg_ne p.1, fun h => absurd ht0 h.1⟩
    | none =>
      cases ht : env.transcribe (temp_audio_path fi.file_path) self.task
          (languageArg self.language) with
      | error e =>
        rw [tf_video_engine_fail self fi i env e hv he ht]
        exact ⟨fun h => absurd h (by decide : ("Ошибка" : String) ≠ "Готово"),
          fun _ => hwf1 _ _ _ _ ht, fun h => absurd ht0 h.1⟩
      | ok text =>
        cases hr : env.removeErr with
        | none =>
          rw [tf_video_ok_remove_ok self fi i env text hv he ht hr]
          exact ⟨fun _ => ⟨hwf2 _ _ _ _ ht, he0⟩,
            fun h => absurd h (by decide : ("Готово" : String) ≠ "Ошибка"),
            fun h => absurd he0 h.2⟩
        | some e =>
          rw [tf_video_ok_remove_fail self fi i env text e hv he ht hr]
          exact ⟨fun h => absurd h (by decide : ("Ошибка" : String) ≠ "Готово"),
            fun _ => hwf3 _ hr, fun _ => ⟨rfl, by simp [hr]⟩⟩

/-- Witness for the amended C2 at a concrete input: an audio item whose
engine call succeeds ends "Готово" with a non-empty transcript and an empty
error detail. -/
theorem c2_amended_witness :
    (transcribe_file sampleWorker sampleAudioItem 0 okItemEnv).item.transcription ≠ "" ∧
    (transcribe_file sampleWorker sampleAudioItem 0 okItemEnv).item.error_message = "" :=
  (c2_amended sampleWorker sampleAudioItem 0 okItemEnv rfl rfl
    ⟨fun _ _ _ _ h => by simp [okItemEnv] at h,
     fun _ _ _ s h => by simp [okItemEnv] at h; rw [← h]; decide,
     fun _ h => by simp [okItemEnv] at h⟩).1 rfl

/-! ### Claim C3 -/

/-- Counterexample to claim C3: a video item whose extraction fails after
partially writing the temp file.  The item settles "Ошибка" (as the claim
says), but the temp file still exists after the run: `temp_audio_path` was
never assigned in `transcribe_file`, so the handler attempts no deletion,
and `extract_audio_from_video` itself cleans nothing up. -/
theorem c3_counterexample :
    (TranscriptionWorker.run
        { files := [{ file_path := "bad.mp4" }], model_name := "base",
          language := none, task := "transcribe" }
        { loadErr := none
          itemEnvs := fun _ =>
            { extractErr := some ("codec error", true),
              transcribe := fun _ _ _ => .ok "x", removeErr := none }
          workerSched := [], mainSched := [] }).tempExists = [true]
    ∧ (TranscriptionWorker.run
        { files := [{ file_path := "bad.mp4" }], model_name := "base",
          language := none, task := "transcribe" }
        { loadErr := none
          itemEnvs := fun _ =>
            { extractErr := some ("codec error", true),
              transcribe := fun _ _ _ => .ok "x", removeErr := none }
          workerSched := [], mainSched := [] }).files
      = [{ file_path := "bad.mp4", status := "Ошибка",
           error_message := "Ошибка извлечения аудио: codec error" }] := by
  exact ⟨rfl, rfl⟩

/-- Claim C3, amended: for any item, if a failing extraction does not itself
leave a partial file behind and the deletion call does not fail, then no
temporary audio file exists after the item settles; and a video item whose
extraction fails always settles "Ошибка". -/
theorem c3_amended (self : TranscriptionWorker) (fi : FileItem) (i : Int)
    (env : ItemEnv)
    (hleft : ∀ m l, env.extractErr = some (m, l) → l = false)
    (hrm : env.removeErr = none) :
    (transcribe_file self fi i env).tempFileExists = false ∧
    (∀ m l, env.extractErr = some (m, l) → isVideoFile fi.file_path = true →
      (transcribe_file self fi i env).item.status = "Ошибка") := by
  cases hv : isVideoFile fi.file_path
  · cases ht : env.transcribe fi.file_path self.task (languageArg self.language) with
    | error e =>
      rw [tf_audio_fail self fi i env e hv ht]
      exact ⟨rfl, fun m l hm hveq => nomatch hveq⟩
    | ok text =>
      rw [tf_audio_ok self fi i env text hv ht]
      exact ⟨rfl, fun m l hm hveq => nomatch hveq⟩
  · cases he : env.extractErr with
    | some p =>
      rw [tf_video_extract_fail self fi i env p.1 p.2 hv (by rw [he])]
      refine ⟨?_, fun m l hm _ => rfl⟩
      have := hleft p.1 p.2 (by rw [he])
      simpa using this
    | none =>
      cases ht : env.transcribe (temp_audio_path fi.file_path) self.task
          (languageArg self.language) with
      | error e =>
        rw [tf_video_engine_fail self fi i env e hv he ht]
        exact ⟨by simp [hrm], fun m l hm _ => nomatch hm⟩
      | ok text =>
        rw [tf_video_ok_remove_ok self fi i env text hv he ht hrm]
        exact ⟨rfl, fun m l hm _ => nomatch hm⟩

/-- The environment of the C3 witness: extraction fails without leaving a
file, removal would succeed. -/
def cleanFailEnv : ItemEnv :=
  { extractErr := some ("no audio track", false)
    transcribe := fun _ _ _ => .ok "x"
    removeErr := none }

/-- Witness for the amended C3 at a concrete input: a video item whose
extraction fails cleanly (no partial file) and whose removal would
succeed. -/
theorem c3_amended_witness :
    (transcribe_file sampleWorker { file_path := "broken.mp4" } 0
        cleanFailEnv).tempFileExists = false ∧
    (∀ m l, cleanFailEnv.extractErr = some (m, l) →
      isVideoFile "broken.mp4" = true →
      (transcribe_file sampleWorker { file_path := "broken.mp4" } 0
        cleanFailEnv).item.status = "Ошибка") :=
  c3_amended sampleWorker { file_path := "broken.mp4" } 0 cleanFailEnv
    (fun _ _ hm => (congrArg Prod.snd (Option.some.inj hm)).symm)
    rfl

/-! ### Claim C4 -/

/-- Claim C4 states that engine calls are serialized across the pool
workers.  The code contradicts this: `transcribe_file` calls
`self.model.transcribe` (lines 66-76) directly from the pool threads and
`TranscriptionWorker` holds no lock, so nothing prevents two workers from
being inside the engine call at once.  In the interleaving model, from the
initial state of the default pool (`max_workers = 2` workers before their
engine calls) the state in which BOTH workers are inside
`self.model.transcribe` is reachable. -/
theorem c4_engine_calls_overlap :
    ({ files := [], model_name := "base", language := none,
       task := "transcribe" } : TranscriptionWorker).max_workers = 2 ∧
    EngineReachable (List.replicate 2 WorkerPC.beforeEngine)
      [WorkerPC.inEngine, WorkerPC.inEngine] := by
  refine ⟨rfl, ?_⟩
  have s1 : EngineStep [WorkerPC.beforeEngine, WorkerPC.beforeEngine]
      [WorkerPC.inEngine, WorkerPC.beforeEngine] := by
    have h := EngineStep.enter [WorkerPC.beforeEngine, WorkerPC.beforeEngine] 0 rfl
    simpa using h
  have s2 : EngineStep [WorkerPC.inEngine, WorkerPC.beforeEngine]
      [WorkerPC.inEngine, WorkerPC.inEngine] := by
    have h := EngineStep.enter [WorkerPC.inEngine, WorkerPC.beforeEngine] 1 rfl
    simpa using h
  exact Relation.ReflTransGen.tail (Relation.ReflTransGen.single s1) s2

/-! ### Claim C5 -/

/-- Claim C5: when `whisper.load_model` raises, the run emits the loading
message, a run-level "Ошибка" message and `finished` — nothing else: no
per-item status event (every `progress_update` has index `-1`), no
aggregate-progress event — and the worklist is untouched, so items that
entered the run Pending stay Pending. -/
theorem c5_load_failure (self : TranscriptionWorker) (env : RunEnv) (e : String)
    (h : env.loadErr = some e)
    (hp : ∀ fi ∈ self.files, fi.status = "Ожидание") :
    (self.run env).files = self.files ∧
    (self.run env).events =
      [.progress_update (-1) "Загрузка Whisper..." "Загрузка",
       .progress_update (-1) ("Ошибка: " ++ e) "Ошибка",
       .finished] ∧
    (∀ i p s, Event.progress_update i p s ∈ (self.run env).events → i = -1) ∧
    (∀ p, Event.file_progress p ∉ (self.run env).events) ∧
    ∀ fi ∈ (self.run env).files, fi.status = "Ожидание" := by
  refine ⟨?_, ?_, ?_, ?_, ?_⟩
  · simp [TranscriptionWorker.run, h]
  · simp [TranscriptionWorker.run, h]
  · intro i p s hm
    simp [TranscriptionWorker.run, h] at hm
    rcases hm with ⟨h1, _, _⟩ | ⟨h1, _, _⟩ <;> exact h1
  · intro p hm
    simp [TranscriptionWorker.run, h] at hm
  · intro fi hfi
    simp only [TranscriptionWorker.run, h] at hfi
    exact hp fi hfi

/-- Witness for C5: the one-item worker, a failing load. -/
theorem c5_witness :
    (sampleWorker.run failLoadEnv).files = sampleWorker.files ∧
    (sampleWorker.run failLoadEnv).events =
      [.progress_update (-1) "Загрузка Whisper..." "Загрузка",
       .progress_update (-1) ("Ошибка: " ++ "CUDA out of memory") "Ошибка",
       .finished] ∧
    (∀ i p s, Event.progress_update i p s ∈ (sampleWorker.run failLoadEnv).events → i = -1) ∧
    (∀ p, Event.file_progress p ∉ (sampleWorker.run failLoadEnv).events) ∧
    ∀ fi ∈ (sampleWorker.run failLoadEnv).files, fi.status = "Ожидание" :=
  c5_load_failure sampleWorker failLoadEnv "CUDA out of memory" rfl
    (by intro fi hfi; simp [sampleWorker, sampleAudioItem] at hfi; rw [hfi])

/-! ### Claim C6 -/

/-- The last element of a nonempty list that ends in an explicit singleton. -/
theorem getLast?_cons_append_singleton (a : Event) (l : List Event) (x : Event) :
    (a :: (l ++ [x])).getLast? = some x := by
  rw [show a :: (l ++ [x]) = (a :: l) ++ [x] from rfl, List.getLast?_append]
  rfl

/-- Claim C6: whenever the model loads, the run still covers every submitted
item, `finished` is the last emitted signal, and every item ends in exactly
one of the two terminal statuses — never Pending ("Ожидание") or Running
("В процессе") — whatever the external outcomes and schedules are. -/
theorem c6_terminal_states (self : TranscriptionWorker) (env : RunEnv)
    (h : env.loadErr = none) :
    (self.run env).events.getLast? = some .finished ∧
    (self.run env).files.length = self.files.length ∧
    (∀ fi ∈ (self.run env).files,
      fi.status = "Готово" ∨ fi.status = "Ошибка") ∧
    ∀ fi ∈ (self.run env).files,
      fi.status ≠ "Ожидание" ∧ fi.status ≠ "В процессе" := by
  have hmem : ∀ fi ∈ (self.run env).files,
      fi.status = "Готово" ∨ fi.status = "Ошибка" := by
    intro fi hfi
    simp only [TranscriptionWorker.run, h] at hfi
    obtain ⟨o, ho, rfl⟩ := List.mem_map.mp hfi
    obtain ⟨fi', j, rfl, _⟩ := mem_itemOutcomes _ _ _ _ _ ho
    exact transcribe_file_status _ _ _ _
  refine ⟨?_, ?_, hmem, ?_⟩
  · simp only [TranscriptionWorker.run, h]
    exact getLast?_cons_append_singleton _ _ _
  · simp [TranscriptionWorker.run, h, length_itemOutcomes]
  · intro fi hfi
    rcases hmem fi hfi with hs | hs <;> rw [hs] <;> exact ⟨by decide, by decide⟩

/-- Witness for C6: the one-item run with every external call succeeding. -/
theorem c6_witness :
    (sampleWorker.run sampleRunEnv).events.getLast? = some .finished ∧
    (sampleWorker.run sampleRunEnv).files.length = sampleWorker.files.length ∧
    (∀ fi ∈ (sampleWorker.run sampleRunEnv).files,
      fi.status = "Готово" ∨ fi.status = "Ошибка") ∧
    ∀ fi ∈ (sampleWorker.run sampleRunEnv).files,
      fi.status ≠ "Ожидание" ∧ fi.status ≠ "В процессе" :=
  c6_terminal_states sampleWorker sampleRunEnv rfl

/-! ### Claim C8 -/

/-- Claim C8: a `start_transcription` call that arrives while the previous
worker is still running is a rejected no-op: the application state —
including every item, its status, transcript and error detail — is
unchanged, the outcome is one of the two warning message boxes (the
"already running" one whenever the worklist is non-empty), and no new
worker is constructed or started. -/
theorem c8_start_rejected_while_running (self : TranscriberApp)
    (h : self.workerIsRunning = true) :
    (start_transcription self).1 = self ∧
    ((start_transcription self).2 = .warnBusy ∨
      (start_transcription self).2 = .warnNoFiles) ∧
    (self.files ≠ [] → (start_transcription self).2 = .warnBusy) ∧
    ∀ w, (start_transcription self).2 ≠ .started w := by
  unfold start_transcription
  by_cases hf : self.files = []
  · simp [hf]
  · simp [hf, h]

/-- Witness for C8: a concrete busy application. -/
theorem c8_witness :
    (start_transcription
        { files := [sampleAudioItem], workerIsRunning := true, model_combo := "base",
          language_combo := "auto", translate_checked := false }).1
      = { files := [sampleAudioItem], workerIsRunning := true, model_combo := "base",
          language_combo := "auto", translate_checked := false } ∧
    ((start_transcription
        { files := [sampleAudioItem], workerIsRunning := true, model_combo := "base",
          language_combo := "auto", translate_checked := false }).2 = .warnBusy ∨
      (start_transcription
        { files := [sampleAudioItem], workerIsRunning := true, model_combo := "base",
          language_combo := "auto", translate_checked := false }).2 = .warnNoFiles) ∧
    (({ files := [sampleAudioItem], workerIsRunning := true, model_combo := "base",
          language_combo := "auto", translate_checked := false } : TranscriberApp).files ≠ [] →
      (start_transcription
        { files := [sampleAudioItem], workerIsRunning := true, model_combo := "base",
          language_combo := "auto", translate_checked := false }).2 = .warnBusy) ∧
    ∀ w, (start_transcription
        { files := [sampleAudioItem], workerIsRunning := true, model_combo := "base",
          language_combo := "auto", translate_checked := false }).2 ≠ .started w :=
  c8_start_rejected_while_running
    { files := [sampleAudioItem], workerIsRunning := true, model_combo := "base",
      language_combo := "auto", translate_checked := false } rfl

/-! ### Claim C7 -/

/-- Claim C7: in a run over at least one item whose model loads, exactly one
aggregate-progress value is emitted per settled item (failures included),
the emitted sequence is monotonically non-decreasing whatever order the
schedules settle items in, and the last emitted value is exactly 100. -/
theorem c7_progress_monotone (self : TranscriptionWorker) (env : RunEnv)
    (h : env.loadErr = none) (hn : 1 ≤ self.files.length) :
    ((self.run env).events.filterMap getFP).length = self.files.length ∧
    List.Pairwise (· ≤ ·) ((self.run env).events.filterMap getFP) ∧
    ((self.run env).events.filterMap getFP).getLast? = some 100 := by
  rw [run_progress_values self env h]
  refine ⟨by simp, ?_, ?_⟩
  · apply List.pairwise_map.mpr
    apply List.Pairwise.imp ?_ (List.pairwise_lt_range _)
    intro a b hab
    exact progress_percent_mono (a + 1) (b + 1) self.files.length (Nat.succ_pos a)
      (by omega)
  · obtain ⟨m, hm⟩ : ∃ m, self.files.length = m + 1 :=
      ⟨self.files.length - 1, by omega⟩
    rw [hm, List.range_succ, List.map_append, List.getLast?_append]
    simp [progress_percent_self (m + 1) (Nat.succ_pos m)]

/-- Witness for C7: the one-item run. -/
theorem c7_witness :
    ((sampleWorker.run sampleRunEnv).events.filterMap getFP).length
      = sampleWorker.files.length ∧
    List.Pairwise (· ≤ ·) ((sampleWorker.run sampleRunEnv).events.filterMap getFP) ∧
    ((sampleWorker.run sampleRunEnv).events.filterMap getFP).getLast? = some 100 :=
  c7_progress_monotone sampleWorker sampleRunEnv rfl (by simp [sampleWorker])

/-! ### Claim C9 -/

/-- A worker over one hundred identical audio items. -/
def manyFilesWorker : TranscriptionWorker :=
  { files := List.replicate 100 { file_path := "a.mp3" }, model_name := "base",
    language := none, task := "transcribe" }

/-- Counterexample to claim C9: in a run over 100 items, the percentage
emitted after the 29th settle is 28, not the exact integer truncation of
100·29/100 = 29.  The code computes `int((29 / 100) * 100)` in binary64:
`29 / 100` rounds to a double slightly below 0.29, multiplying by 100
rounds to a double slightly below 29, and `int` truncates to 28. -/
theorem c9_counterexample :
    ((manyFilesWorker.run sampleRunEnv).events.filterMap getFP)[28]? = some 28 ∧
    pyInt ((100 * 29 : ℚ) / 100) = 29 ∧ (28 : ℤ) ≠ 29 := by
  refine ⟨?_, exact_truncation_29_100, by decide⟩
  rw [run_progress_values manyFilesWorker sampleRunEnv rfl]
  have hlen : manyFilesWorker.files.length = 100 := by simp [manyFilesWorker]
  rw [hlen, List.getElem?_map, List.getElem?_range (by norm_num : (28 : ℕ) < 100)]
  simp [progress_percent_29_100]

/-- Claim C9, amended: the percentage emitted after the j-th settle is the
binary64 evaluation `int((j / N) * 100)` — `progress_percent j N` — which
can fall one below the exact integer truncation of 100·j/N (at j = 29,
N = 100 it is 28); the value emitted at j = N is still exactly 100. -/
theorem c9_amended (self : TranscriptionWorker) (env : RunEnv)
    (h : env.loadErr = none) (j : ℕ) (hj : j < self.files.length) :
    ((self.run env).events.filterMap getFP)[j]?
      = some (progress_percent (j + 1) self.files.length) ∧
    progress_percent self.files.length self.files.length = 100 := by
  constructor
  · rw [run_progress_values self env h, List.getElem?_map, List.getElem?_range hj]
    rfl
  · exact progress_percent_self _ (by omega)

/-- Witness for the amended C9: the one-item run emits 100 after its only
settle. -/
theorem c9_amended_witness :
    ((sampleWorker.run sampleRunEnv).events.filterMap getFP)[0]?
      = some (progress_percent (0 + 1) sampleWorker.files.length) ∧
    progress_percent sampleWorker.files.length sampleWorker.files.length = 100 :=
  c9_amended sampleWorker sampleRunEnv rfl 0 (by simp [sampleWorker])

/-! ### Claim C10 -/

theorem rsplitDot_of_not_mem (b : List Char) (hb : '.' ∉ b) : rsplitDot b = none := by
  induction b with
  | nil => rfl
  | cons c rest ih =>
    have hc : c ≠ '.' := fun h => hb (by simp [h])
    have hr : '.' ∉ rest := fun h => hb (by simp [h])
    simp [rsplitDot, ih hr, hc]

theorem rsplitDot_append_last (a b : List Char) (hb : '.' ∉ b) :
    rsplitDot (a ++ '.' :: b) = some (a, b) := by
  induction a with
  | nil => simp [rsplitDot, rsplitDot_of_not_mem b hb]
  | cons c a ih => simp [rsplitDot, ih]

/-- Claim C10: for any path with a dot — written `a ++ "." ++ b` with the
final extension `b` dot-free — the temp path is the text before the last
dot followed by `_temp_audio.wav`, so two paths differing only in their
extension collide on the same temp path. -/
theorem c10_temp_path_shape (a b b' : List Char) (hb : '.' ∉ b) (hb' : '.' ∉ b') :
    temp_audio_path ⟨a ++ '.' :: b⟩ = ⟨a ++ "_temp_audio.wav".data⟩ ∧
    temp_audio_path ⟨a ++ '.' :: b⟩ = temp_audio_path ⟨a ++ '.' :: b'⟩ := by
  have key : ∀ c : List Char, '.' ∉ c →
      temp_audio_path ⟨a ++ '.' :: c⟩ = ⟨a ++ "_temp_audio.wav".data⟩ := by
    intro c hc
    unfold temp_audio_path rsplitHead
    rw [show (String.mk (a ++ '.' :: c)).data = a ++ '.' :: c from rfl,
      rsplitDot_append_last a c hc]
  exact ⟨key b hb, (key b hb).trans (key b' hb').symm⟩

/-- Witness for C10: `clip.mp4` and `clip.mkv` share the temp path
`clip_temp_audio.wav`. -/
theorem c10_witness :
    temp_audio_path ⟨"clip".data ++ '.' :: "mp4".data⟩
      = ⟨"clip".data ++ "_temp_audio.wav".data⟩ ∧
    temp_audio_path ⟨"clip".data ++ '.' :: "mp4".data⟩
      = temp_audio_path ⟨"clip".data ++ '.' :: "mkv".data⟩ :=
  c10_temp_path_shape "clip".data "mp4".data "mkv".data (by decide) (by decide)
